import Mathlib

/-!
Shallow embedding of the markdown_to_pdf_conversion repository.

Embedded source files:
* `src/Parallel_processing_v3/pdf_converter_enhanced.py` — class `PDFConverter`
  (`convert_pdf_with_pymupdf`, `convert_pdf_with_markitdown`, `process_pdf`,
  `process_directory`).
* `src/Parallel_processing_v3/parallel_pdf_converter.py` —
  `process_single_pdf`, `collect_pdf_files`, `process_pdfs_parallel`.
* `src/Images_working_properly_v1/pdf_to_markdown_converter_alternative2.py` —
  the image-reference logic that differs from the enhanced version
  (`rel_path = f"{image_folder.name}/{image_filename}"`).

Modelling conventions:
* paths are lists of components; the filesystem is a map from paths to file
  contents plus a set of directories;
* the opaque engines (PyMuPDF, markitdown) are environment functions; a `none`
  result models the library call raising an exception;
* the Python statement `with open(p, "w") as f: f.write(c)` opens the file
  in truncating write mode; its fault model is `WriteOutcome`: the write can
  complete, raise after `open` already created/truncated the file (disk full,
  encoding error — the file then exists, here with the truncated content),
  or raise inside `open` itself (the file is then untouched);
* image raw bytes are opaque string tokens, and base64 encoding of an opaque
  token is modelled as the token itself (no claim depends on the encoding).
-/

namespace PdfMd

/-- A filesystem path, as a list of components. -/
abbrev Path := List String

/-- One raster image extracted from a page: raw bytes (an opaque token) and
the format extension that `doc.extract_image` reports. -/
structure Img where
  bytes : String
  ext : String
deriving DecidableEq

/-- One PDF page as PyMuPDF presents it: `page.get_text()` and the images of
`page.get_images(full=True)` in image-table order. -/
structure Page where
  text : String
  images : List Img
deriving DecidableEq

/-- A PDF document, a page sequence in file order. -/
structure Doc where
  pages : List Page
deriving DecidableEq

/-- Fault model for one `with open(p, "w") as f: f.write(c)` statement. -/
inductive WriteOutcome where
  | ok
  | errAfterCreate
  | errBeforeCreate
deriving DecidableEq

/-- The opaque engines and the fault injection for filesystem writes.
`fitzOpen p = none` models `fitz.open` (or the subsequent page iteration)
raising; `markitdown p = none` models `markitdown.convert` raising. -/
structure Env where
  fitzOpen : Path → Option Doc
  markitdown : Path → Option String
  write : Path → WriteOutcome

/-- The output filesystem state: file contents by path, plus the set of
existing directories. -/
@[ext]
structure FS where
  files : Path → Option String
  dirs : Path → Bool

/-- Overwrite (truncating-write) of one file, as `open(p, "w")` does. -/
def setFile (fs : FS) (p : Path) (c : String) : FS :=
  { fs with files := fun q => if q = p then some c else fs.files q }

/-- `p.mkdir(parents=True, exist_ok=True)`: the directory and all its
ancestors exist afterwards; idempotent. -/
def mkdirParents (fs : FS) (p : Path) : FS :=
  { fs with dirs := fun q => fs.dirs q || q.isPrefixOf p }

/-- Execute `with open(p, "w") as f: f.write(c)` under the fault model;
the boolean records whether the statement completed without raising. -/
def writeTo (env : Env) (fs : FS) (p : Path) (c : String) : FS × Bool :=
  match env.write p with
  | .ok => (setFile fs p c, true)
  | .errAfterCreate => (setFile fs p "", false)
  | .errBeforeCreate => (fs, false)

/-- The empty filesystem, used by concrete evaluations. -/
def fsEmpty : FS :=
  { files := fun _ => none, dirs := fun _ => false }

/-! ## Decimal formatting (`f"{n:03d}"`) -/

/-- The big-endian decimal digits of a natural number (empty for zero,
matching the little-endian `Nat.digits 10` reversed). -/
def natDigitsBE (n : Nat) : List Nat := (Nat.digits 10 n).reverse

/-- Zero-pad the decimal digits of `n` to width `w`, as `"%0wd"` does. -/
def padDigits (w n : Nat) : List Nat :=
  List.replicate (w - (natDigitsBE n).length) 0 ++ natDigitsBE n

/-- A decimal digit as a character. -/
def digitChar (d : Nat) : Char :=
  match d with
  | 0 => '0' | 1 => '1' | 2 => '2' | 3 => '3' | 4 => '4'
  | 5 => '5' | 6 => '6' | 7 => '7' | 8 => '8' | 9 => '9'
  | _ => '*'

/-- `f"{n:0wd}"`: decimal representation of `n` zero-padded to width `w`.
For `n = 0` the digit list is empty and the padding supplies the zeros,
which agrees with Python (`"%03d" % 0 == "000"`). -/
def padStr (w n : Nat) : String := ⟨(padDigits w n).map digitChar⟩

/-- `image_filename = f"image_{page_num:03d}_{img_index+1:02d}.{img_ext}"`
(both converter versions compute exactly this; the index argument here is
already the 1-based `img_index + 1`). -/
def imageFilename (pageNum idx : Nat) (ext : String) : String :=
  "image_" ++ padStr 3 pageNum ++ "_" ++ padStr 2 idx ++ "." ++ ext

/-! ## The primary converter, `PDFConverter.convert_pdf_with_pymupdf` -/

/-- `base64.b64encode(img_bytes).decode()` — the bytes are opaque tokens, so
the encoding is modelled as the identity on the token. -/
def b64encode (bytes : String) : String := bytes

/-- The header-and-text fragment for one page:
`f"### Page {page_num}\n\n{text}\n"`. -/
def pageHeader (pageNum : Nat) (text : String) : String :=
  "### Page " ++ toString pageNum ++ "\n\n" ++ text ++ "\n"

/-- The body of the per-image loop of `convert_pdf_with_pymupdf` (enhanced
version): embed mode emits a base64 data URI and touches no file; folder mode
creates the image folder, writes the image file and emits a reference whose
folder component is the literal `"images"` (`rel_path = f"images/{...}"`).
A `none` fragment models the loop body raising (propagating to the outer
`except`): either the image-file write failed, or `image_folder` was `None`
(then `image_folder.mkdir` raises AttributeError). -/
def placeImage (env : Env) (embed : Bool) (imageFolder : Option Path)
    (pageNum idx : Nat) (img : Img) (fs : FS) : FS × Option String :=
  let filename := imageFilename pageNum idx img.ext
  if embed then
    (fs, some ("![Image](data:image/" ++ img.ext ++ ";base64," ++
               b64encode img.bytes ++ ")\n"))
  else
    match imageFolder with
    | none => (fs, none)
    | some folder =>
      let fs1 := mkdirParents fs folder
      match writeTo env fs1 (folder ++ [filename]) img.bytes with
      | (fs2, true) =>
        (fs2, some ("![Image](" ++ ("images/" ++ filename) ++ ")\n"))
      | (fs2, false) => (fs2, none)

/-- The inner image loop (`for img_index, img in enumerate(images)`), with
`idx` the 1-based index of the first remaining image. A raised exception
(`none`) aborts the loop, keeping the filesystem effects made so far. -/
def convertImages (env : Env) (embed : Bool) (imageFolder : Option Path)
    (pageNum : Nat) : List Img → Nat → FS → FS × Option (List String)
  | [], _, fs => (fs, some [])
  | img :: rest, idx, fs =>
    match placeImage env embed imageFolder pageNum idx img fs with
    | (fs1, none) => (fs1, none)
    | (fs1, some frag) =>
      match convertImages env embed imageFolder pageNum rest (idx + 1) fs1 with
      | (fs2, none) => (fs2, none)
      | (fs2, some frags) => (fs2, some (frag :: frags))

/-- The page loop (`for page_num, page in enumerate(doc, start=1)`), with `n`
the number of the first remaining page; builds `markdown_parts`. -/
def convertPages (env : Env) (embed : Bool) (imageFolder : Option Path) :
    List Page → Nat → FS → FS × Option (List String)
  | [], _, fs => (fs, some [])
  | pg :: rest, n, fs =>
    match convertImages env embed imageFolder n pg.images 1 fs with
    | (fs1, none) => (fs1, none)
    | (fs1, some frags) =>
      match convertPages env embed imageFolder rest (n + 1) fs1 with
      | (fs2, none) => (fs2, none)
      | (fs2, some parts) => (fs2, some (pageHeader n pg.text :: (frags ++ parts)))

/-- `PDFConverter.convert_pdf_with_pymupdf`: open the document, build
`markdown_parts` page by page, then write `"\n".join(markdown_parts)` to the
output path. Returns `True` on success; any exception is caught and yields
`False` (with whatever filesystem effects already happened). -/
def convert_pdf_with_pymupdf (env : Env) (embed : Bool)
    (pdfPath outputPath : Path) (imageFolder : Option Path) (fs : FS) :
    FS × Bool :=
  match env.fitzOpen pdfPath with
  | none => (fs, false)
  | some doc =>
    match convertPages env embed imageFolder doc.pages 1 fs with
    | (fs1, none) => (fs1, false)
    | (fs1, some parts) =>
      writeTo env fs1 outputPath (String.intercalate "\n" parts)

/-! ## The fallback converter, `PDFConverter.convert_pdf_with_markitdown` -/

/-- `PDFConverter.convert_pdf_with_markitdown`: run the engine and write its
text verbatim. The Python function returns `None` and swallows every
exception (engine failure and write failure alike), so the model returns only
the filesystem. -/
def convert_pdf_with_markitdown (env : Env) (pdfPath outputPath : Path)
    (fs : FS) : FS :=
  match env.markitdown pdfPath with
  | none => fs
  | some output => (writeTo env fs outputPath output).1

/-! ## Output path derivation -/

/-- Index of the last dot of a name, if any (Python `str.rfind(".")`). -/
def rfindDot : List Char → Option Nat
  | [] => none
  | c :: rest =>
    match rfindDot rest with
    | some i => some (i + 1)
    | none => if c = '.' then some 0 else none

/-- `PurePath.with_suffix(".md")` on a file name: the suffix is the part from
the last dot when that dot is neither the first nor the last character
(pathlib treats a leading dot as a hidden-file marker and a trailing dot as
no suffix); the suffix is replaced, otherwise `.md` is appended. -/
def withSuffixMd (name : String) : String :=
  let cs := name.data
  match rfindDot cs with
  | some i =>
    if 0 < i ∧ i < cs.length - 1 then ⟨cs.take i⟩ ++ ".md" else name ++ ".md"
  | none => name ++ ".md"

/-- Apply `with_suffix(".md")` to the last component of a relative path. -/
def withSuffixMdPath : Path → Path
  | [] => []
  | [x] => [withSuffixMd x]
  | x :: xs => x :: withSuffixMdPath xs

/-- `pdf_path.relative_to(source_dir)` for a path produced by walking
`source_dir`: drop the source-root components. -/
def relative_to (p base : Path) : Path := p.drop base.length

/-- `output_path.parent`. -/
def parentOf (p : Path) : Path := p.dropLast

/-- `output_path = output_dir / relative_path.with_suffix(".md")`. -/
def outputPathFor (pdfPath sourceDir outputDir : Path) : Path :=
  outputDir ++ withSuffixMdPath (relative_to pdfPath sourceDir)

/-! ## `PDFConverter.process_pdf` -/

/-- Observable engine invocations of one job (instrumentation only: an event
is recorded exactly where `process_pdf` calls the respective converter). -/
inductive Ev where
  | primaryCall (p : Path)
  | fallbackCall (p : Path)
deriving DecidableEq

/-- `PDFConverter.process_pdf`: derive the output path, fix the image folder
(`output_path.parent / "images"` unless embedding, else `None`), create the
output parent directory, convert with PyMuPDF and fall back to markitdown if
that returned `False`. The fallback result is not inspected. -/
def process_pdf (env : Env) (embed : Bool)
    (pdfPath sourceDir outputDir : Path) (fs : FS) : FS × List Ev :=
  let outputPath := outputPathFor pdfPath sourceDir outputDir
  let localImageFolder : Option Path :=
    if embed then none else some (parentOf outputPath ++ ["images"])
  let fs0 := mkdirParents fs (parentOf outputPath)
  match convert_pdf_with_pymupdf env embed pdfPath outputPath
      localImageFolder fs0 with
  | (fs1, true) => (fs1, [.primaryCall pdfPath])
  | (fs1, false) =>
    (convert_pdf_with_markitdown env pdfPath outputPath fs1,
     [.primaryCall pdfPath, .fallbackCall pdfPath])

/-! ## Discovery: `process_directory` walk and `collect_pdf_files` -/

/-- One regular file of the source tree: the directory path that the
recursive traversal reports (including the source root) and the file name. -/
structure Entry where
  dir : Path
  name : String
deriving DecidableEq

/-- `str.lower()` (exact for ASCII names; Python also lowercases non-ASCII
letters, which no claim exercises). -/
def lowerName (s : String) : String := ⟨s.data.map Char.toLower⟩

/-- `str.endswith(suffix)`. -/
def endsWithB (s sfx : String) : Bool := List.isSuffixOf sfx.data s.data

/-- The selection of the `os.walk` loop of `process_directory`:
`file.lower().endswith(".pdf")`. -/
def walkPdfEntries (tree : List Entry) : List Entry :=
  tree.filter fun e => endsWithB (lowerName e.name) ".pdf"

/-- Full-name glob matching as `fnmatch` compiles a pattern of literals and
`*` on a case-sensitive (POSIX) filesystem: `*` matches any sequence of
characters, a literal matches itself. -/
def globMatch (p s : List Char) : Bool :=
  match p with
  | [] => s.isEmpty
  | c :: ps =>
    if c = '*' then
      globMatch ps s ||
        (match s with
         | [] => false
         | _ :: s' => globMatch (c :: ps) s')
    else
      match s with
      | [] => false
      | c' :: s' => c = c' && globMatch ps s'
termination_by (p.length + s.length)
decreasing_by
  all_goals simp_arith [*]

/-- `collect_pdf_files`: `source_dir.rglob("*.pdf")` over the tree — each
file whose name matches the glob pattern `*.pdf`. -/
def collect_pdf_files (tree : List Entry) : List Entry :=
  tree.filter fun e => globMatch "*.pdf".data e.name.data

/-- `PDFConverter.process_directory`: walk the tree and run `process_pdf` on
every name for which `file.lower().endswith(".pdf")` holds. -/
def process_directory (env : Env) (embed : Bool) (sourceDir outputDir : Path)
    (tree : List Entry) (fs : FS) : FS :=
  (walkPdfEntries tree).foldl
    (fun acc e =>
      (process_pdf env embed (e.dir ++ [e.name]) sourceDir outputDir acc).1)
    fs

/-! ## The parallel dispatcher -/

/-- `process_single_pdf` (worker function): runs `process_pdf` and returns
`True`; the `except` branch returning `False` is unreachable here because
both converters catch their own exceptions, `relative_to` is applied to a
path obtained from the walk, and directory creation is total in the model. -/
def process_single_pdf (env : Env) (embed : Bool)
    (pdfPath sourceDir outputDir : Path) (fs : FS) : FS × Bool :=
  let r := process_pdf env embed pdfPath sourceDir outputDir fs
  (r.1, true)

/-- `pool.map(process_single_pdf, pdf_info_list)`: one worker result per
collected file; the pool is linearised (jobs are independent and write
disjoint paths, and `pool.map` preserves input order of results). -/
def runPool (env : Env) (embed : Bool) (sourceDir outputDir : Path) :
    List Entry → FS → FS × List Bool
  | [], fs => (fs, [])
  | e :: rest, fs =>
    let r := process_single_pdf env embed (e.dir ++ [e.name]) sourceDir
      outputDir fs
    let rs := runPool env embed sourceDir outputDir rest r.1
    (rs.1, r.2 :: rs.2)

/-- `process_pdfs_parallel`: collect the files, run the pool, and compute the
summary `successful = sum(results)` together with `total_files`. -/
def process_pdfs_parallel (env : Env) (embed : Bool)
    (sourceDir outputDir : Path) (tree : List Entry) (fs : FS) :
    FS × Nat × Nat :=
  let pdfFiles := collect_pdf_files tree
  let r := runPool env embed sourceDir outputDir pdfFiles fs
  (r.1, r.2.count true, pdfFiles.length)

/-! ## The alternative-2 image placement
(`Images_working_properly_v1/pdf_to_markdown_converter_alternative2.py`).
Its per-image loop body differs from the enhanced version in one line: the
Markdown reference uses `image_folder.name`, the last component of the
configured folder, instead of the literal `"images"`. -/

/-- Last component of a path (`PurePath.name`). -/
def lastComponent (p : Path) : String := p.getLastD ""

/-- The per-image loop body of the alternative-2 `convert_pdf_with_pymupdf`:
identical to the enhanced one except for the reference text
(`rel_path = f"{image_folder.name}/{image_filename}"`). -/
def placeImage_alt2 (env : Env) (embed : Bool) (imageFolder : Option Path)
    (pageNum idx : Nat) (img : Img) (fs : FS) : FS × Option String :=
  let filename := imageFilename pageNum idx img.ext
  if embed then
    (fs, some ("![Image](data:image/" ++ img.ext ++ ";base64," ++
               b64encode img.bytes ++ ")\n"))
  else
    match imageFolder with
    | none => (fs, none)
    | some folder =>
      let fs1 := mkdirParents fs folder
      match writeTo env fs1 (folder ++ [filename]) img.bytes with
      | (fs2, true) =>
        (fs2, some ("![Image](" ++ (lastComponent folder ++ "/" ++ filename)
                    ++ ")\n"))
      | (fs2, false) => (fs2, none)

/-! ## Filesystem update scripts

Every function above threads the filesystem through a sequence of
truncating writes and idempotent directory creations whose arguments depend
only on the environment, never on the filesystem read back. The script
denotation below makes that explicit and yields the frame, last-writer and
idempotence lemmas used by the claims. -/

/-- One primitive filesystem effect. -/
inductive FSOp where
  | write (p : Path) (c : String)
  | mkdirp (p : Path)

/-- Apply one effect. -/
def applyOp (fs : FS) : FSOp → FS
  | .write p c => setFile fs p c
  | .mkdirp p => mkdirParents fs p

/-- Apply a script left to right. -/
def applyScript (fs : FS) (ops : List FSOp) : FS := ops.foldl applyOp fs

/-- The value of the last write of the script to a path, if any. -/
def lastWriteTo : List FSOp → Path → Option String
  | [], _ => none
  | .write p c :: rest, q =>
    (lastWriteTo rest q).orElse fun _ => if q = p then some c else none
  | .mkdirp _ :: rest, q => lastWriteTo rest q

/-- Whether some directory creation of the script covers a path. -/
def mkdirsCover : List FSOp → Path → Bool
  | [], _ => false
  | .write _ _ :: rest, q => mkdirsCover rest q
  | .mkdirp p :: rest, q => q.isPrefixOf p || mkdirsCover rest q

theorem applyScript_nil (fs : FS) : applyScript fs [] = fs := rfl

theorem applyScript_cons (fs : FS) (op : FSOp) (ops : List FSOp) :
    applyScript fs (op :: ops) = applyScript (applyOp fs op) ops := rfl

theorem applyScript_append (fs : FS) (s1 s2 : List FSOp) :
    applyScript fs (s1 ++ s2) = applyScript (applyScript fs s1) s2 :=
  List.foldl_append ..

theorem files_applyScript (s : List FSOp) (fs : FS) (q : Path) :
    (applyScript fs s).files q =
      match lastWriteTo s q with
      | some c => some c
      | none => fs.files q := by
  induction s generalizing fs with
  | nil => rfl
  | cons op rest ih =>
    rw [applyScript_cons, ih]
    cases op with
    | write p c =>
      simp only [lastWriteTo]
      cases lastWriteTo rest q with
      | some c' => simp [Option.orElse]
      | none =>
        simp only [Option.orElse, applyOp, setFile]
        by_cases hq : q = p <;> simp [hq]
    | mkdirp p =>
      simp only [lastWriteTo]
      cases lastWriteTo rest q with
      | some c' => rfl
      | none => rfl

theorem dirs_applyScript (s : List FSOp) (fs : FS) (q : Path) :
    (applyScript fs s).dirs q = (fs.dirs q || mkdirsCover s q) := by
  induction s generalizing fs with
  | nil => simp [applyScript, mkdirsCover]
  | cons op rest ih =>
    rw [applyScript_cons, ih]
    cases op with
    | write p c => simp [applyOp, setFile, mkdirsCover]
    | mkdirp p => simp [applyOp, mkdirParents, mkdirsCover, Bool.or_assoc]

/-- Applying the same script twice is the same as applying it once: writes
are last-writer-wins overwrites and directory creation is idempotent. -/
theorem applyScript_idem (s : List FSOp) (fs : FS) :
    applyScript (applyScript fs s) s = applyScript fs s := by
  apply FS.ext
  · funext q
    rw [files_applyScript, files_applyScript]
    cases lastWriteTo s q <;> simp
  · funext q
    rw [dirs_applyScript, dirs_applyScript]
    cases fs.dirs q <;> cases mkdirsCover s q <;> rfl

theorem lastWriteTo_append (s1 s2 : List FSOp) (q : Path) :
    lastWriteTo (s1 ++ s2) q =
      (lastWriteTo s2 q).orElse fun _ => lastWriteTo s1 q := by
  induction s1 with
  | nil =>
    rw [List.nil_append]
    cases lastWriteTo s2 q <;> simp [lastWriteTo, Option.orElse]
  | cons op rest ih =>
    cases op with
    | write p c =>
      simp only [List.cons_append, lastWriteTo, List.append_eq]
      rw [ih]
      cases lastWriteTo s2 q <;> cases lastWriteTo rest q <;>
        simp [Option.orElse]
    | mkdirp p => simpa [lastWriteTo] using ih

theorem mkdirsCover_append (s1 s2 : List FSOp) (q : Path) :
    mkdirsCover (s1 ++ s2) q = (mkdirsCover s1 q || mkdirsCover s2 q) := by
  induction s1 with
  | nil => simp [mkdirsCover]
  | cons op rest ih =>
    cases op with
    | write p c => simpa [mkdirsCover] using ih
    | mkdirp p => simp [mkdirsCover, ih, Bool.or_assoc]

/-- If a script contains no write to `q`, it does not change the content
at `q`. -/
theorem lastWriteTo_eq_none (s : List FSOp) (q : Path)
    (h : ∀ p c, FSOp.write p c ∈ s → p ≠ q) : lastWriteTo s q = none := by
  induction s with
  | nil => rfl
  | cons op rest ih =>
    cases op with
    | write p c =>
      have hpq : p ≠ q := h p c (by simp)
      have hr : lastWriteTo rest q = none :=
        ih fun p' c' hm => h p' c' (by simp [hm])
      simp [lastWriteTo, hr, Option.orElse, Ne.symm hpq]
    | mkdirp p =>
      exact ih fun p' c' hm => h p' c' (by simp [hm])

/-! ## Script denotations of the converters -/

/-- Filesystem effects of one `placeImage` call. -/
def placeImageScript (env : Env) (embed : Bool) (imageFolder : Option Path)
    (pageNum idx : Nat) (img : Img) : List FSOp :=
  if embed then []
  else
    match imageFolder with
    | none => []
    | some folder =>
      .mkdirp folder ::
        (match env.write (folder ++ [imageFilename pageNum idx img.ext]) with
         | .ok => [.write (folder ++ [imageFilename pageNum idx img.ext])
                    img.bytes]
         | .errAfterCreate =>
           [.write (folder ++ [imageFilename pageNum idx img.ext]) ""]
         | .errBeforeCreate => [])

/-- The fragment one `placeImage` call yields, independent of the filesystem. -/
def placeImageFrag (env : Env) (embed : Bool) (imageFolder : Option Path)
    (pageNum idx : Nat) (img : Img) : Option String :=
  if embed then
    some ("![Image](data:image/" ++ img.ext ++ ";base64," ++
          b64encode img.bytes ++ ")\n")
  else
    match imageFolder with
    | none => none
    | some folder =>
      match env.write (folder ++ [imageFilename pageNum idx img.ext]) with
      | .ok =>
        some ("![Image](" ++ ("images/" ++ imageFilename pageNum idx img.ext)
              ++ ")\n")
      | .errAfterCreate => none
      | .errBeforeCreate => none

theorem placeImage_eq (env : Env) (embed : Bool) (imageFolder : Option Path)
    (pageNum idx : Nat) (img : Img) (fs : FS) :
    placeImage env embed imageFolder pageNum idx img fs =
      (applyScript fs (placeImageScript env embed imageFolder pageNum idx img),
       placeImageFrag env embed imageFolder pageNum idx img) := by
  cases embed with
  | true => rfl
  | false =>
    cases imageFolder with
    | none => rfl
    | some folder =>
      simp only [placeImage, placeImageScript, placeImageFrag, writeTo,
        Bool.false_eq_true, if_false]
      cases env.write (folder ++ [imageFilename pageNum idx img.ext]) <;> rfl

/-- Fragments of the image loop, independent of the filesystem. -/
def imagesFrags (env : Env) (embed : Bool) (imageFolder : Option Path)
    (pageNum : Nat) : List Img → Nat → Option (List String)
  | [], _ => some []
  | img :: rest, idx =>
    match placeImageFrag env embed imageFolder pageNum idx img with
    | none => none
    | some frag =>
      match imagesFrags env embed imageFolder pageNum rest (idx + 1) with
      | none => none
      | some frags => some (frag :: frags)

/-- Filesystem effects of the image loop (aborting on the first failure). -/
def imagesScript (env : Env) (embed : Bool) (imageFolder : Option Path)
    (pageNum : Nat) : List Img → Nat → List FSOp
  | [], _ => []
  | img :: rest, idx =>
    placeImageScript env embed imageFolder pageNum idx img ++
      match placeImageFrag env embed imageFolder pageNum idx img with
      | none => []
      | some _ => imagesScript env embed imageFolder pageNum rest (idx + 1)

theorem convertImages_eq (env : Env) (embed : Bool) (imageFolder : Option Path)
    (pageNum : Nat) :
    ∀ (imgs : List Img) (idx : Nat) (fs : FS),
      convertImages env embed imageFolder pageNum imgs idx fs =
        (applyScript fs (imagesScript env embed imageFolder pageNum imgs idx),
         imagesFrags env embed imageFolder pageNum imgs idx)
  | [], _, fs => rfl
  | img :: rest, idx, fs => by
    rw [convertImages, placeImage_eq]
    rw [imagesScript, imagesFrags]
    cases placeImageFrag env embed imageFolder pageNum idx img with
    | none => simp
    | some frag =>
      dsimp only
      rw [convertImages_eq env embed imageFolder pageNum rest (idx + 1)]
      cases imagesFrags env embed imageFolder pageNum rest (idx + 1) <;>
        simp [applyScript_append]

/-- The `markdown_parts` of the page loop, independent of the filesystem. -/
def pagesFrags (env : Env) (embed : Bool) (imageFolder : Option Path) :
    List Page → Nat → Option (List String)
  | [], _ => some []
  | pg :: rest, n =>
    match imagesFrags env embed imageFolder n pg.images 1 with
    | none => none
    | some frags =>
      match pagesFrags env embed imageFolder rest (n + 1) with
      | none => none
      | some parts => some (pageHeader n pg.text :: (frags ++ parts))

/-- Filesystem effects of the page loop. -/
def pagesScript (env : Env) (embed : Bool) (imageFolder : Option Path) :
    List Page → Nat → List FSOp
  | [], _ => []
  | pg :: rest, n =>
    imagesScript env embed imageFolder n pg.images 1 ++
      match imagesFrags env embed imageFolder n pg.images 1 with
      | none => []
      | some _ => pagesScript env embed imageFolder rest (n + 1)

theorem convertPages_eq (env : Env) (embed : Bool) (imageFolder : Option Path) :
    ∀ (pgs : List Page) (n : Nat) (fs : FS),
      convertPages env embed imageFolder pgs n fs =
        (applyScript fs (pagesScript env embed imageFolder pgs n),
         pagesFrags env embed imageFolder pgs n)
  | [], _, fs => rfl
  | pg :: rest, n, fs => by
    rw [convertPages, convertImages_eq]
    rw [pagesScript, pagesFrags]
    cases imagesFrags env embed imageFolder n pg.images 1 with
    | none => simp
    | some frags =>
      dsimp only
      rw [convertPages_eq env embed imageFolder rest (n + 1)]
      cases pagesFrags env embed imageFolder rest (n + 1) <;>
        simp [applyScript_append]

/-- Filesystem effects of one `with open(p, "w")` write statement. -/
def writeScript (env : Env) (p : Path) (c : String) : List FSOp :=
  match env.write p with
  | .ok => [.write p c]
  | .errAfterCreate => [.write p ""]
  | .errBeforeCreate => []

/-- Whether the write statement at `p` completes. -/
def writeOk (env : Env) (p : Path) : Bool :=
  match env.write p with
  | .ok => true
  | .errAfterCreate => false
  | .errBeforeCreate => false

theorem writeTo_eq (env : Env) (fs : FS) (p : Path) (c : String) :
    writeTo env fs p c = (applyScript fs (writeScript env p c), writeOk env p) := by
  simp only [writeTo, writeScript, writeOk]
  cases env.write p <;> rfl

/-- Filesystem effects of `convert_pdf_with_pymupdf`. -/
def primaryScript (env : Env) (embed : Bool) (pdfPath outputPath : Path)
    (imageFolder : Option Path) : List FSOp :=
  match env.fitzOpen pdfPath with
  | none => []
  | some doc =>
    pagesScript env embed imageFolder doc.pages 1 ++
      match pagesFrags env embed imageFolder doc.pages 1 with
      | none => []
      | some parts =>
        writeScript env outputPath (String.intercalate "\n" parts)

/-- The boolean result of `convert_pdf_with_pymupdf`, independent of the
filesystem. -/
def primaryOk (env : Env) (embed : Bool) (pdfPath outputPath : Path)
    (imageFolder : Option Path) : Bool :=
  match env.fitzOpen pdfPath with
  | none => false
  | some doc =>
    match pagesFrags env embed imageFolder doc.pages 1 with
    | none => false
    | some _ => writeOk env outputPath

theorem convert_pdf_with_pymupdf_eq (env : Env) (embed : Bool)
    (pdfPath outputPath : Path) (imageFolder : Option Path) (fs : FS) :
    convert_pdf_with_pymupdf env embed pdfPath outputPath imageFolder fs =
      (applyScript fs (primaryScript env embed pdfPath outputPath imageFolder),
       primaryOk env embed pdfPath outputPath imageFolder) := by
  rw [convert_pdf_with_pymupdf, primaryScript, primaryOk]
  cases env.fitzOpen pdfPath with
  | none => rfl
  | some doc =>
    dsimp only
    rw [convertPages_eq]
    cases pagesFrags env embed imageFolder doc.pages 1 with
    | none => simp
    | some parts => dsimp only; rw [writeTo_eq]; simp [applyScript_append]

/-- Filesystem effects of `convert_pdf_with_markitdown`. -/
def fallbackScript (env : Env) (pdfPath outputPath : Path) : List FSOp :=
  match env.markitdown pdfPath with
  | none => []
  | some output => writeScript env outputPath output

theorem convert_pdf_with_markitdown_eq (env : Env) (pdfPath outputPath : Path)
    (fs : FS) :
    convert_pdf_with_markitdown env pdfPath outputPath fs =
      applyScript fs (fallbackScript env pdfPath outputPath) := by
  rw [convert_pdf_with_markitdown, fallbackScript]
  cases env.markitdown pdfPath with
  | none => rfl
  | some output => dsimp only; rw [writeTo_eq]

/-- The image folder `process_pdf` fixes for a job. -/
def localImageFolderFor (embed : Bool) (outputPath : Path) : Option Path :=
  if embed then none else some (parentOf outputPath ++ ["images"])

/-- Whether the primary conversion of the job set up by `process_pdf`
succeeds. -/
def primaryOkFor (env : Env) (embed : Bool)
    (pdfPath sourceDir outputDir : Path) : Bool :=
  primaryOk env embed pdfPath (outputPathFor pdfPath sourceDir outputDir)
    (localImageFolderFor embed (outputPathFor pdfPath sourceDir outputDir))

/-- Filesystem effects of one `process_pdf` job. -/
def processScript (env : Env) (embed : Bool)
    (pdfPath sourceDir outputDir : Path) : List FSOp :=
  let outputPath := outputPathFor pdfPath sourceDir outputDir
  .mkdirp (parentOf outputPath) ::
    (primaryScript env embed pdfPath outputPath
        (localImageFolderFor embed outputPath) ++
      if primaryOkFor env embed pdfPath sourceDir outputDir then []
      else fallbackScript env pdfPath outputPath)

/-- The engine invocations of one `process_pdf` job. -/
def processEvents (env : Env) (embed : Bool)
    (pdfPath sourceDir outputDir : Path) : List Ev :=
  if primaryOkFor env embed pdfPath sourceDir outputDir then
    [.primaryCall pdfPath]
  else [.primaryCall pdfPath, .fallbackCall pdfPath]

theorem process_pdf_eq (env : Env) (embed : Bool)
    (pdfPath sourceDir outputDir : Path) (fs : FS) :
    process_pdf env embed pdfPath sourceDir outputDir fs =
      (applyScript fs (processScript env embed pdfPath sourceDir outputDir),
       processEvents env embed pdfPath sourceDir outputDir) := by
  rw [process_pdf, processScript, processEvents]
  rw [show (if embed then none else
        some (parentOf (outputPathFor pdfPath sourceDir outputDir) ++
          ["images"])) =
      localImageFolderFor embed (outputPathFor pdfPath sourceDir outputDir)
    from rfl]
  rw [convert_pdf_with_pymupdf_eq]
  rw [show primaryOk env embed pdfPath
        (outputPathFor pdfPath sourceDir outputDir)
        (localImageFolderFor embed (outputPathFor pdfPath sourceDir outputDir))
      = primaryOkFor env embed pdfPath sourceDir outputDir from rfl]
  cases h : primaryOkFor env embed pdfPath sourceDir outputDir with
  | true => dsimp only; simp [applyScript_cons, applyScript_append, applyOp]
  | false =>
    dsimp only
    rw [convert_pdf_with_markitdown_eq]
    simp [applyScript_cons, applyScript_append, applyOp]

/-! ## Facts about decimal padding and image filenames -/

theorem ofDigits_replicate_zero (k : Nat) :
    Nat.ofDigits 10 (List.replicate k 0) = 0 := by
  induction k with
  | zero => simp
  | succ k ih => simp [List.replicate_succ, Nat.ofDigits_cons, ih]

/-- Evaluating the padded digit string recovers the number: padding only
prepends zeros in front of the canonical decimal digits. -/
theorem val_padDigits (w n : Nat) :
    Nat.ofDigits 10 (padDigits w n).reverse = n := by
  unfold padDigits natDigitsBE
  rw [List.reverse_append, List.reverse_reverse, List.reverse_replicate]
  rw [Nat.ofDigits_append]
  simp [ofDigits_replicate_zero, Nat.ofDigits_digits]

theorem padDigits_inj {w m n : Nat} (h : padDigits w m = padDigits w n) :
    m = n := by
  have hv := congrArg (fun l => Nat.ofDigits 10 l.reverse) h
  simpa [val_padDigits] using hv

theorem padDigits_lt (w n : Nat) : ∀ d ∈ padDigits w n, d < 10 := by
  intro d hd
  unfold padDigits natDigitsBE at hd
  rcases List.mem_append.1 hd with h | h
  · have := List.eq_of_mem_replicate h
    omega
  · exact Nat.digits_lt_base (by norm_num) (List.mem_reverse.1 h)

theorem digitChar_inj {d e : Nat} (hd : d < 10) (he : e < 10) :
    digitChar d = digitChar e → d = e := by
  interval_cases d <;> interval_cases e <;> decide

theorem digitChar_ne_underscore {d : Nat} (hd : d < 10) : digitChar d ≠ '_' := by
  interval_cases d <;> decide

theorem digitChar_ne_dot {d : Nat} (hd : d < 10) : digitChar d ≠ '.' := by
  interval_cases d <;> decide

theorem map_digitChar_inj : ∀ (l1 l2 : List Nat), (∀ d ∈ l1, d < 10) →
    (∀ d ∈ l2, d < 10) → l1.map digitChar = l2.map digitChar → l1 = l2
  | [], [], _, _, _ => rfl
  | [], _ :: _, _, _, h => by simp at h
  | _ :: _, [], _, _, h => by simp at h
  | a :: l1, b :: l2, h1, h2, h => by
    simp only [List.map_cons, List.cons.injEq] at h
    have hab : a = b := digitChar_inj (h1 a (by simp)) (h2 b (by simp)) h.1
    have hl : l1 = l2 := map_digitChar_inj l1 l2
      (fun d hd => h1 d (by simp [hd])) (fun d hd => h2 d (by simp [hd])) h.2
    rw [hab, hl]

theorem padStr_data (w n : Nat) :
    (padStr w n).data = (padDigits w n).map digitChar := rfl

theorem padStr_data_inj {w m n : Nat}
    (h : (padStr w m).data = (padStr w n).data) : m = n := by
  rw [padStr_data, padStr_data] at h
  exact padDigits_inj (map_digitChar_inj _ _ (padDigits_lt w m) (padDigits_lt w n) h)

theorem padStr_no_char (w n : Nat) (sep : Char)
    (hsep : ∀ d : Nat, d < 10 → digitChar d ≠ sep) :
    ∀ c ∈ (padStr w n).data, c ≠ sep := by
  intro c hc
  rw [padStr_data] at hc
  obtain ⟨d, hd, rfl⟩ := List.mem_map.1 hc
  exact hsep d (padDigits_lt w n d hd)

/-- Splitting at a separator that occurs in neither left part is unique. -/
theorem append_sep_inj (sep : Char) :
    ∀ (a b r1 r2 : List Char), (∀ c ∈ a, c ≠ sep) → (∀ c ∈ b, c ≠ sep) →
      a ++ sep :: r1 = b ++ sep :: r2 → a = b ∧ r1 = r2
  | [], [], r1, r2, _, _, h => by simp_all
  | [], x :: xs, r1, r2, _, hb, h => by
    simp only [List.nil_append, List.cons_append, List.cons.injEq] at h
    exact absurd h.1.symm (hb x (by simp))
  | x :: xs, [], r1, r2, ha, _, h => by
    simp only [List.nil_append, List.cons_append, List.cons.injEq] at h
    exact absurd h.1 (ha x (by simp))
  | x :: xs, y :: ys, r1, r2, ha, hb, h => by
    simp only [List.cons_append, List.cons.injEq] at h
    obtain ⟨h1, h2⟩ := h
    obtain ⟨h3, h4⟩ := append_sep_inj sep xs ys r1 r2
      (fun c hc => ha c (by simp [hc])) (fun c hc => hb c (by simp [hc])) h2
    exact ⟨by rw [h1, h3], h4⟩

theorem string_data_inj {s t : String} (h : s.data = t.data) : s = t := by
  cases s
  cases t
  exact congrArg String.mk h

/-- Distinct (page, index) pairs always yield distinct image filenames, and
equal filenames force equal extensions: the name determines the extraction
coordinates. -/
theorem imageFilename_inj {p1 i1 p2 i2 : Nat} {e1 e2 : String}
    (h : imageFilename p1 i1 e1 = imageFilename p2 i2 e2) :
    p1 = p2 ∧ i1 = i2 ∧ e1 = e2 := by
  have hd := congrArg String.data h
  simp only [imageFilename, String.data_append, List.append_assoc] at hd
  have hd2 : (padStr 3 p1).data ++ '_' :: ((padStr 2 i1).data ++ '.' :: e1.data)
      = (padStr 3 p2).data ++ '_' :: ((padStr 2 i2).data ++ '.' :: e2.data) := by
    have hc := List.append_cancel_left hd
    simpa [List.singleton_append] using hc
  obtain ⟨hp, hrest⟩ := append_sep_inj '_' _ _ _ _
    (padStr_no_char 3 p1 '_' fun d hd => digitChar_ne_underscore hd)
    (padStr_no_char 3 p2 '_' fun d hd => digitChar_ne_underscore hd) hd2
  obtain ⟨hi, he⟩ := append_sep_inj '.' _ _ _ _
    (padStr_no_char 2 i1 '.' fun d hd => digitChar_ne_dot hd)
    (padStr_no_char 2 i2 '.' fun d hd => digitChar_ne_dot hd) hrest
  exact ⟨padStr_data_inj hp, padStr_data_inj hi, string_data_inj he⟩

/-! ## Glob matching facts -/

theorem globMatch_nil_pat (s : List Char) : globMatch [] s = s.isEmpty := by
  rw [globMatch]

theorem globMatch_star_nil (ps : List Char) :
    globMatch ('*' :: ps) [] = globMatch ps [] := by
  rw [globMatch]
  simp

theorem globMatch_star_cons (ps : List Char) (c : Char) (s : List Char) :
    globMatch ('*' :: ps) (c :: s) =
      (globMatch ps (c :: s) || globMatch ('*' :: ps) s) := by
  rw [globMatch]
  simp

theorem globMatch_lit_nil (c : Char) (ps : List Char) (hc : c ≠ '*') :
    globMatch (c :: ps) [] = false := by
  rw [globMatch]
  simp [hc]

theorem globMatch_lit_cons (c : Char) (ps : List Char) (c' : Char)
    (s' : List Char) (hc : c ≠ '*') :
    globMatch (c :: ps) (c' :: s') = (decide (c = c') && globMatch ps s') := by
  rw [globMatch]
  simp [hc]

/-- A star-free pattern matches exactly itself. -/
theorem globMatch_lit (lit : List Char) (hstar : '*' ∉ lit) :
    ∀ s, (globMatch lit s = true ↔ s = lit) := by
  induction lit with
  | nil =>
    intro s
    rw [globMatch_nil_pat]
    cases s <;> simp
  | cons c cs ih =>
    have hc : c ≠ '*' := fun hcc => hstar (by simp [hcc])
    have hcs : '*' ∉ cs := fun hm => hstar (by simp [hm])
    intro s
    cases s with
    | nil => rw [globMatch_lit_nil c cs hc]; simp
    | cons c' s' =>
      rw [globMatch_lit_cons c cs c' s' hc]
      simp only [Bool.and_eq_true, decide_eq_true_eq, List.cons.injEq]
      rw [ih hcs s']
      constructor
      · rintro ⟨rfl, rfl⟩; exact ⟨rfl, rfl⟩
      · rintro ⟨rfl, rfl⟩; exact ⟨rfl, rfl⟩

/-- The pattern `*lit` (star-free `lit`) matches exactly the strings with
suffix `lit`. -/
theorem globMatch_star_suffix (lit : List Char) (hstar : '*' ∉ lit) :
    ∀ s, (globMatch ('*' :: lit) s = true ↔ lit <:+ s) := by
  intro s
  induction s with
  | nil =>
    rw [globMatch_star_nil, globMatch_lit lit hstar []]
    simp [List.suffix_nil, eq_comm]
  | cons c s' ih =>
    rw [globMatch_star_cons]
    simp only [Bool.or_eq_true, globMatch_lit lit hstar (c :: s'), ih,
      List.suffix_cons_iff]
    tauto

/-- `fnmatch` of the pattern `*.pdf` is exactly the case-sensitive test
that the name ends with `.pdf`. -/
theorem globMatch_pdf (name : String) :
    (globMatch "*.pdf".data name.data = true) ↔ ".pdf".data <:+ name.data := by
  rw [show "*.pdf".data = '*' :: ".pdf".data from rfl]
  exact globMatch_star_suffix _ (by decide) _

/-! ## The Markdown shape claimed by the specification -/

/-- 1-based enumeration (`enumerate(xs, start=n)`). -/
def enumFrom {α : Type} : Nat → List α → List (Nat × α)
  | _, [] => []
  | n, a :: as => (n, a) :: enumFrom (n + 1) as

/-- The Markdown fragment for one extracted image, as the enhanced converter
emits it. -/
def imageFragment (embed : Bool) (pageNum idx : Nat) (img : Img) : String :=
  if embed then
    "![Image](data:image/" ++ img.ext ++ ";base64," ++ b64encode img.bytes
      ++ ")\n"
  else
    "![Image](" ++ ("images/" ++ imageFilename pageNum idx img.ext) ++ ")\n"

/-- The claimed shape of `markdown_parts`: per page, in page order with
1-based ascending numbering, the header-plus-text fragment followed by that
page's image fragments in extraction order. -/
def mdParts (embed : Bool) (pages : List Page) : List String :=
  (enumFrom 1 pages).flatMap fun pp =>
    pageHeader pp.1 pp.2.text ::
      (enumFrom 1 pp.2.images).map fun ii => imageFragment embed pp.1 ii.1 ii.2

theorem placeImageFrag_some {env : Env} {embed : Bool} {f : Option Path}
    {n idx : Nat} {img : Img} {frag : String}
    (h : placeImageFrag env embed f n idx img = some frag) :
    frag = imageFragment embed n idx img := by
  unfold placeImageFrag at h
  unfold imageFragment
  cases embed with
  | true => simp_all
  | false =>
    cases f with
    | none => simp_all
    | some folder =>
      simp only [Bool.false_eq_true, if_false] at h ⊢
      cases hw : env.write (folder ++ [imageFilename n idx img.ext]) <;>
        rw [hw] at h <;> simp_all

theorem imagesFrags_some {env : Env} {embed : Bool} {f : Option Path}
    {n : Nat} : ∀ {imgs : List Img} {idx : Nat} {frags : List String},
    imagesFrags env embed f n imgs idx = some frags →
    frags = (enumFrom idx imgs).map fun ii => imageFragment embed n ii.1 ii.2
  | [], idx, frags, h => by
    simp [imagesFrags] at h
    simp [enumFrom, ← h]
  | img :: rest, idx, frags, h => by
    rw [imagesFrags] at h
    cases hp : placeImageFrag env embed f n idx img with
    | none => rw [hp] at h; exact absurd h (by simp)
    | some frag =>
      rw [hp] at h
      cases hr : imagesFrags env embed f n rest (idx + 1) with
      | none => rw [hr] at h; exact absurd h (by simp)
      | some frags' =>
        rw [hr] at h
        simp only [Option.some.injEq] at h
        rw [← h, enumFrom, List.map_cons]
        rw [← placeImageFrag_some hp, imagesFrags_some hr]

theorem pagesFrags_some {env : Env} {embed : Bool} {f : Option Path} :
    ∀ {pgs : List Page} {n : Nat} {parts : List String},
    pagesFrags env embed f pgs n = some parts →
    parts = (enumFrom n pgs).flatMap fun pp =>
      pageHeader pp.1 pp.2.text ::
        (enumFrom 1 pp.2.images).map fun ii => imageFragment embed pp.1 ii.1 ii.2
  | [], n, parts, h => by
    simp [pagesFrags] at h
    simp [enumFrom, ← h]
  | pg :: rest, n, parts, h => by
    rw [pagesFrags] at h
    cases hi : imagesFrags env embed f n pg.images 1 with
    | none => rw [hi] at h; exact absurd h (by simp)
    | some frags =>
      rw [hi] at h
      cases hr : pagesFrags env embed f rest (n + 1) with
      | none => rw [hr] at h; exact absurd h (by simp)
      | some parts' =>
        rw [hr] at h
        simp only [Option.some.injEq] at h
        rw [← h, enumFrom, List.flatMap_cons]
        rw [imagesFrags_some hi, pagesFrags_some hr]
        simp

/-! ## Enumeration facts -/

theorem enumFrom_le {α : Type} :
    ∀ {l : List α} {k i : Nat} {a : α}, (i, a) ∈ enumFrom k l → k ≤ i
  | [], _, _, _, h => absurd h (by simp [enumFrom])
  | x :: xs, k, i, a, h => by
    rw [enumFrom] at h
    rcases List.mem_cons.1 h with h | h
    · simp only [Prod.mk.injEq] at h
      omega
    · have := enumFrom_le h
      omega

theorem enumFrom_unique {α : Type} :
    ∀ {l : List α} {k i : Nat} {a b : α},
      (i, a) ∈ enumFrom k l → (i, b) ∈ enumFrom k l → a = b
  | [], _, _, _, _, h, _ => absurd h (by simp [enumFrom])
  | x :: xs, k, i, a, b, ha, hb => by
    rw [enumFrom] at ha hb
    rcases List.mem_cons.1 ha with ha' | ha' <;>
      rcases List.mem_cons.1 hb with hb' | hb'
    · simp only [Prod.mk.injEq] at ha' hb'
      rw [ha'.2, hb'.2]
    · simp only [Prod.mk.injEq] at ha'
      have := enumFrom_le hb'
      omega
    · simp only [Prod.mk.injEq] at hb'
      have := enumFrom_le ha'
      omega
    · exact enumFrom_unique ha' hb'

/-! ## Where the converter scripts write -/

theorem placeImageScript_write_mem {env : Env} {embed : Bool} {f : Option Path}
    {n idx : Nat} {img : Img} {p : Path} {c : String}
    (hm : FSOp.write p c ∈ placeImageScript env embed f n idx img) :
    ∃ folder, f = some folder ∧ p = folder ++ [imageFilename n idx img.ext] := by
  unfold placeImageScript at hm
  cases embed with
  | true => simp at hm
  | false =>
    cases f with
    | none => simp at hm
    | some folder =>
      refine ⟨folder, rfl, ?_⟩
      simp only [Bool.false_eq_true, if_false] at hm
      cases hw : env.write (folder ++ [imageFilename n idx img.ext]) <;>
        rw [hw] at hm <;> simp_all

theorem imagesScript_write_mem {env : Env} {embed : Bool} {f : Option Path}
    {n : Nat} : ∀ {imgs : List Img} {idx : Nat} {p : Path} {c : String},
    FSOp.write p c ∈ imagesScript env embed f n imgs idx →
    ∃ folder i' img', f = some folder ∧ (i', img') ∈ enumFrom idx imgs ∧
      p = folder ++ [imageFilename n i' img'.ext]
  | [], idx, p, c, hm => by simp [imagesScript] at hm
  | img :: rest, idx, p, c, hm => by
    rw [imagesScript] at hm
    rcases List.mem_append.1 hm with h | h
    · obtain ⟨folder, hf, hp⟩ := placeImageScript_write_mem h
      exact ⟨folder, idx, img, hf, by rw [enumFrom]; simp, hp⟩
    · cases hfr : placeImageFrag env embed f n idx img with
      | none => rw [hfr] at h; simp at h
      | some frag =>
        rw [hfr] at h
        obtain ⟨folder, i', img', hf, hmem, hp⟩ := imagesScript_write_mem h
        exact ⟨folder, i', img', hf,
          by rw [enumFrom]; exact List.mem_cons_of_mem _ hmem, hp⟩

theorem pagesScript_write_mem {env : Env} {embed : Bool} {f : Option Path} :
    ∀ {pgs : List Page} {n0 : Nat} {p : Path} {c : String},
    FSOp.write p c ∈ pagesScript env embed f pgs n0 →
    ∃ folder n' i' e', f = some folder ∧ n0 ≤ n' ∧
      p = folder ++ [imageFilename n' i' e']
  | [], n0, p, c, hm => by simp [pagesScript] at hm
  | pg :: rest, n0, p, c, hm => by
    rw [pagesScript] at hm
    rcases List.mem_append.1 hm with h | h
    · obtain ⟨folder, i', img', hf, _, hp⟩ := imagesScript_write_mem h
      exact ⟨folder, n0, i', img'.ext, hf, le_refl _, hp⟩
    · cases hfr : imagesFrags env embed f n0 pg.images 1 with
      | none => rw [hfr] at h; simp at h
      | some frags =>
        rw [hfr] at h
        obtain ⟨folder, n', i', e', hf, hn, hp⟩ := pagesScript_write_mem h
        exact ⟨folder, n', i', e', hf, by omega, hp⟩

/-! ## Embed mode touches no files besides the output -/

theorem imagesScript_embed (env : Env) (f : Option Path) (n : Nat) :
    ∀ (imgs : List Img) (idx : Nat), imagesScript env true f n imgs idx = []
  | [], _ => rfl
  | img :: rest, idx => by
    rw [imagesScript]
    simp [placeImageScript, placeImageFrag,
      imagesScript_embed env f n rest (idx + 1)]

theorem pagesScript_embed (env : Env) (f : Option Path) :
    ∀ (pgs : List Page) (n : Nat), pagesScript env true f pgs n = []
  | [], _ => rfl
  | pg :: rest, n => by
    rw [pagesScript, imagesScript_embed]
    cases imagesFrags env true f n pg.images 1 <;>
      simp [pagesScript_embed env f rest (n + 1)]

theorem writeScript_write_mem {env : Env} {q : Path} {c0 : String} {p : Path}
    {c : String} (hm : FSOp.write p c ∈ writeScript env q c0) : p = q := by
  unfold writeScript at hm
  cases hw : env.write q <;> rw [hw] at hm <;> simp_all

theorem writeScript_no_mkdir {env : Env} {q : Path} {c0 : String} {p : Path}
    (hm : FSOp.mkdirp p ∈ writeScript env q c0) : False := by
  unfold writeScript at hm
  cases hw : env.write q <;> rw [hw] at hm <;> simp_all

theorem primaryScript_embed_write_mem {env : Env} {pdfPath out : Path}
    {f : Option Path} {p : Path} {c : String}
    (hm : FSOp.write p c ∈ primaryScript env true pdfPath out f) : p = out := by
  unfold primaryScript at hm
  cases hfz : env.fitzOpen pdfPath with
  | none => rw [hfz] at hm; simp at hm
  | some doc =>
    rw [hfz] at hm
    dsimp only at hm
    rw [pagesScript_embed] at hm
    simp only [List.nil_append] at hm
    cases hfr : pagesFrags env true f doc.pages 1 with
    | none => rw [hfr] at hm; simp at hm
    | some parts =>
      rw [hfr] at hm
      exact writeScript_write_mem hm

theorem primaryScript_embed_no_mkdir {env : Env} {pdfPath out : Path}
    {f : Option Path} {p : Path}
    (hm : FSOp.mkdirp p ∈ primaryScript env true pdfPath out f) : False := by
  unfold primaryScript at hm
  cases hfz : env.fitzOpen pdfPath with
  | none => rw [hfz] at hm; simp at hm
  | some doc =>
    rw [hfz] at hm
    dsimp only at hm
    rw [pagesScript_embed] at hm
    simp only [List.nil_append] at hm
    cases hfr : pagesFrags env true f doc.pages 1 with
    | none => rw [hfr] at hm; simp at hm
    | some parts =>
      rw [hfr] at hm
      exact writeScript_no_mkdir hm

theorem mkdirsCover_eq_false {s : List FSOp} {q : Path}
    (h : ∀ p, FSOp.mkdirp p ∉ s) : mkdirsCover s q = false := by
  induction s with
  | nil => rfl
  | cons op rest ih =>
    cases op with
    | write p c =>
      simpa [mkdirsCover] using ih fun p' hp => h p' (by simp [hp])
    | mkdirp p => exact absurd (by simp) (h p)

/-! ## Folder mode persists every image (last-writer analysis) -/

theorem folder_append_inj {folder : Path} {a b : String}
    (h : folder ++ [a] = folder ++ [b]) : a = b := by
  have hc := List.append_cancel_left h
  simpa using hc

theorem placeImageFrag_some_writeOk {env : Env} {folder : Path} {n idx : Nat}
    {img : Img} {frag : String}
    (h : placeImageFrag env false (some folder) n idx img = some frag) :
    env.write (folder ++ [imageFilename n idx img.ext]) = .ok := by
  unfold placeImageFrag at h
  simp only [Bool.false_eq_true, if_false] at h
  cases hw : env.write (folder ++ [imageFilename n idx img.ext]) <;>
    rw [hw] at h <;> simp_all

theorem imagesScript_lastWrite {env : Env} {folder : Path} {n : Nat}
    {imgs : List Img} :
    ∀ {idx : Nat} {frags : List String} {i : Nat} {img : Img},
    imagesFrags env false (some folder) n imgs idx = some frags →
    (i, img) ∈ enumFrom idx imgs →
    lastWriteTo (imagesScript env false (some folder) n imgs idx)
      (folder ++ [imageFilename n i img.ext]) = some img.bytes := by
  induction imgs with
  | nil =>
    intro idx frags i img _ hmem
    exact absurd hmem (by simp [enumFrom])
  | cons img0 rest ih =>
    intro idx frags i img hsucc hmem
    rw [imagesFrags] at hsucc
    cases hf0 : placeImageFrag env false (some folder) n idx img0 with
    | none => rw [hf0] at hsucc; simp at hsucc
    | some frag0 =>
      rw [hf0] at hsucc
      cases hfr : imagesFrags env false (some folder) n rest (idx + 1) with
      | none => rw [hfr] at hsucc; simp at hsucc
      | some frags' =>
        rw [imagesScript, hf0, lastWriteTo_append]
        rw [enumFrom] at hmem
        rcases List.mem_cons.1 hmem with hh | ht
        · have hi : i = idx := by
            have hfst := congrArg Prod.fst hh
            simpa using hfst
          have himg : img = img0 := by
            have hsnd := congrArg Prod.snd hh
            simpa using hsnd
          have hnone : lastWriteTo
              (imagesScript env false (some folder) n rest (idx + 1))
              (folder ++ [imageFilename n i img.ext]) = none := by
            apply lastWriteTo_eq_none
            intro p c hmw
            obtain ⟨folder2, i2, img2, hf, hmem2, hp⟩ :=
              imagesScript_write_mem hmw
            obtain rfl : folder2 = folder := by injection hf.symm
            have hge := enumFrom_le hmem2
            intro he
            rw [hp] at he
            have hfn := folder_append_inj he
            have h2 := (imageFilename_inj hfn).2.1
            omega
          rw [hnone]
          show lastWriteTo
            (placeImageScript env false (some folder) n idx img0)
            (folder ++ [imageFilename n i img.ext]) = some img.bytes
          rw [placeImageScript]
          simp only [Bool.false_eq_true, if_false]
          rw [placeImageFrag_some_writeOk hf0]
          rw [hi, himg]
          simp [lastWriteTo, Option.orElse]
        · rw [ih hfr ht]
          rfl

theorem pagesScript_lastWrite {env : Env} {folder : Path} {pgs : List Page} :
    ∀ {n0 : Nat} {parts : List String} {n i : Nat} {pg : Page} {img : Img},
    pagesFrags env false (some folder) pgs n0 = some parts →
    (n, pg) ∈ enumFrom n0 pgs →
    (i, img) ∈ enumFrom 1 pg.images →
    lastWriteTo (pagesScript env false (some folder) pgs n0)
      (folder ++ [imageFilename n i img.ext]) = some img.bytes := by
  induction pgs with
  | nil =>
    intro n0 parts n i pg img _ hmem _
    exact absurd hmem (by simp [enumFrom])
  | cons pg0 rest ih =>
    intro n0 parts n i pg img hsucc hmem himg
    rw [pagesFrags] at hsucc
    cases hi0 : imagesFrags env false (some folder) n0 pg0.images 1 with
    | none => rw [hi0] at hsucc; simp at hsucc
    | some frags0 =>
      rw [hi0] at hsucc
      cases hr0 : pagesFrags env false (some folder) rest (n0 + 1) with
      | none => rw [hr0] at hsucc; simp at hsucc
      | some parts2 =>
        rw [pagesScript, hi0, lastWriteTo_append]
        rw [enumFrom] at hmem
        rcases List.mem_cons.1 hmem with hh | ht
        · have hn : n = n0 := by
            have hfst := congrArg Prod.fst hh
            simpa using hfst
          have hpg : pg = pg0 := by
            have hsnd := congrArg Prod.snd hh
            simpa using hsnd
          have hnone : lastWriteTo
              (pagesScript env false (some folder) rest (n0 + 1))
              (folder ++ [imageFilename n i img.ext]) = none := by
            apply lastWriteTo_eq_none
            intro p c hmw
            obtain ⟨folder2, n2, i2, e2, hf, hge, hp⟩ :=
              pagesScript_write_mem hmw
            obtain rfl : folder2 = folder := by injection hf.symm
            intro he
            rw [hp] at he
            have hfn := folder_append_inj he
            have h2 := (imageFilename_inj hfn).1
            omega
          rw [hnone]
          show lastWriteTo
            (imagesScript env false (some folder) n0 pg0.images 1)
            (folder ++ [imageFilename n i img.ext]) = some img.bytes
          rw [hpg] at himg
          rw [hn]
          exact imagesScript_lastWrite hi0 himg
        · rw [ih hr0 ht himg]
          rfl

/-! ## Small path and prefix facts -/

theorem imagePath_ne_output (out : Path) (fn : String) :
    (parentOf out ++ ["images"]) ++ [fn] ≠ out := by
  intro h
  have hl := congrArg List.length h
  simp only [List.length_append, List.length_cons, List.length_nil, parentOf,
    List.length_dropLast] at hl
  omega

theorem lastComponent_append (p : Path) (x : String) :
    lastComponent (p ++ [x]) = x := by
  unfold lastComponent
  rw [List.getLastD_eq_getLast?, List.getLast?_concat]
  rfl

theorem isPrefix_of_append :
    ∀ (pat pre r : List Char), pat <+: (pre ++ r) → pat <+: pre ∨ pre <+: pat
  | pat, [], r, _ => Or.inr (List.nil_prefix ..)
  | [], _ :: _, r, _ => Or.inl (List.nil_prefix ..)
  | p :: ps, q :: qs, r, h => by
    rw [List.cons_append] at h
    obtain ⟨rfl, h'⟩ := List.cons_prefix_cons.1 h
    rcases isPrefix_of_append ps qs r h' with h2 | h2
    · exact Or.inl (List.cons_prefix_cons.2 ⟨rfl, h2⟩)
    · exact Or.inr (List.cons_prefix_cons.2 ⟨rfl, h2⟩)

theorem not_prefix_of_neither {pat pre : List Char} (r : List Char)
    (h1 : ¬ pat <+: pre) (h2 : ¬ pre <+: pat) : ¬ pat <+: (pre ++ r) :=
  fun h => (isPrefix_of_append pat pre r h).elim h1 h2

/-! ## Evaluation of the small decimal strings the concrete runs use -/

theorem digits_ten_one : Nat.digits 10 1 = [1] := by
  rw [Nat.digits_def' (by norm_num : (1 : ℕ) < 10) (by norm_num)]
  norm_num

theorem digits_ten_two : Nat.digits 10 2 = [2] := by
  rw [Nat.digits_def' (by norm_num : (1 : ℕ) < 10) (by norm_num)]
  norm_num

theorem padStr_3_1 : padStr 3 1 = "001" := by
  simp only [padStr, padDigits, natDigitsBE, digits_ten_one]
  rfl

theorem padStr_2_1 : padStr 2 1 = "01" := by
  simp only [padStr, padDigits, natDigitsBE, digits_ten_one]
  rfl

theorem padStr_2_2 : padStr 2 2 = "02" := by
  simp only [padStr, padDigits, natDigitsBE, digits_ten_two]
  rfl

theorem imageFilename_1_1_png : imageFilename 1 1 "png" = "image_001_01.png" := by
  rw [imageFilename, padStr_3_1, padStr_2_1]
  rfl

theorem imageFilename_1_2_jpeg :
    imageFilename 1 2 "jpeg" = "image_001_02.jpeg" := by
  rw [imageFilename, padStr_3_1, padStr_2_2]
  rfl

/-! ## The output path is untouched when both engines fail -/

/-- When the primary conversion failed, the fallback engine raised, and the
output-path write statement was not one that fails after creating the file,
the job script contains no write to the output path at all. -/
theorem processScript_no_out_write (env : Env) (embed : Bool)
    (pdfPath sourceDir outputDir : Path)
    (hprim : primaryOkFor env embed pdfPath sourceDir outputDir = false)
    (hfall : env.markitdown pdfPath = none)
    (hw : env.write (outputPathFor pdfPath sourceDir outputDir)
      ≠ .errAfterCreate) :
    lastWriteTo (processScript env embed pdfPath sourceDir outputDir)
      (outputPathFor pdfPath sourceDir outputDir) = none := by
  apply lastWriteTo_eq_none
  intro p c hm
  rw [processScript] at hm
  rcases List.mem_cons.1 hm with h | h
  · exact absurd h (by simp)
  rcases List.mem_append.1 h with h | h
  · rw [primaryScript] at h
    cases hfz : env.fitzOpen pdfPath with
    | none => rw [hfz] at h; simp at h
    | some doc =>
      rw [hfz] at h
      dsimp only at h
      rcases List.mem_append.1 h with h | h
      · obtain ⟨folder, n', i', e', hf, _, hp⟩ := pagesScript_write_mem h
        cases embed with
        | true => simp [localImageFolderFor] at hf
        | false =>
          simp only [localImageFolderFor, Bool.false_eq_true, if_false,
            Option.some.injEq] at hf
          rw [hp, ← hf]
          exact imagePath_ne_output _ _
      · cases hfr : pagesFrags env embed
            (localImageFolderFor embed (outputPathFor pdfPath sourceDir
              outputDir)) doc.pages 1 with
        | none => rw [hfr] at h; simp at h
        | some parts =>
          rw [hfr] at h
          have hwo : writeOk env (outputPathFor pdfPath sourceDir outputDir)
              = false := by
            unfold primaryOkFor primaryOk at hprim
            rw [hfz] at hprim
            dsimp only at hprim
            rw [hfr] at hprim
            exact hprim
          dsimp only at h
          unfold writeScript at h
          cases hwx : env.write (outputPathFor pdfPath sourceDir outputDir) with
          | ok =>
            unfold writeOk at hwo
            rw [hwx] at hwo
            simp at hwo
          | errAfterCreate => exact absurd hwx hw
          | errBeforeCreate => rw [hwx] at h; simp at h
  · rw [hprim] at h
    simp only [Bool.false_eq_true, if_false] at h
    rw [fallbackScript, hfall] at h
    simp at h

/-! ## The whole-run script (sequential `process_directory`) -/

/-- The filesystem effects of one full sequential run. -/
def directoryScript (env : Env) (embed : Bool) (sourceDir outputDir : Path)
    (tree : List Entry) : List FSOp :=
  (walkPdfEntries tree).flatMap fun e =>
    processScript env embed (e.dir ++ [e.name]) sourceDir outputDir

theorem runEntries_eq (env : Env) (embed : Bool) (sourceDir outputDir : Path) :
    ∀ (es : List Entry) (fs : FS),
    es.foldl (fun acc e =>
        (process_pdf env embed (e.dir ++ [e.name]) sourceDir outputDir acc).1)
      fs =
    applyScript fs (es.flatMap fun e =>
      processScript env embed (e.dir ++ [e.name]) sourceDir outputDir)
  | [], fs => rfl
  | e :: rest, fs => by
    rw [List.foldl_cons, List.flatMap_cons, applyScript_append]
    rw [process_pdf_eq]
    dsimp only
    exact runEntries_eq env embed sourceDir outputDir rest _

theorem process_directory_eq (env : Env) (embed : Bool)
    (sourceDir outputDir : Path) (tree : List Entry) (fs : FS) :
    process_directory env embed sourceDir outputDir tree fs =
      applyScript fs (directoryScript env embed sourceDir outputDir tree) :=
  runEntries_eq env embed sourceDir outputDir (walkPdfEntries tree) fs

/-! ## Concrete inputs used by the closed evaluations -/

/-- Both engines fail on `a.pdf`; `b.pdf` converts on the primary path;
all writes complete. -/
def envC1 : Env :=
  { fitzOpen := fun p =>
      if p = ["src", "b.pdf"] then some ⟨[⟨"hello", []⟩]⟩ else none
    markitdown := fun _ => none
    write := fun _ => .ok }

/-- A source tree with a doubly-failing file first and a convertible one
second. -/
def treeC1 : List Entry := [⟨["src"], "a.pdf"⟩, ⟨["src"], "b.pdf"⟩]

/-- The primary path reaches its output write, every write fails after the
file was created, and the fallback engine raises. -/
def envC2 : Env :=
  { fitzOpen := fun p =>
      if p = ["src", "a.pdf"] then some ⟨[⟨"text", []⟩]⟩ else none
    markitdown := fun _ => none
    write := fun _ => .errAfterCreate }

/-- Primary extraction always raises; the fallback engine yields a fixed
text; all writes complete. -/
def envC5 : Env :=
  { fitzOpen := fun _ => none
    markitdown := fun _ => some "FALLBACK"
    write := fun _ => .ok }

/-- All writes complete; the engines are never consulted. -/
def envC6 : Env :=
  { fitzOpen := fun _ => none
    markitdown := fun _ => none
    write := fun _ => .ok }

/-- Page 1 carries two images, page 2 none. -/
def pagesC6 : List Page :=
  [⟨"t1", [⟨"B1", "png"⟩, ⟨"B2", "jpeg"⟩]⟩, ⟨"t2", []⟩]

/-- One single-page text-only document, writes complete. -/
def envC7 : Env :=
  { fitzOpen := fun _ => some ⟨[⟨"T", []⟩]⟩
    markitdown := fun _ => none
    write := fun _ => .ok }

/-- One single-page document with one image, writes complete. -/
def envC8 : Env :=
  { fitzOpen := fun _ => some ⟨[⟨"T", [⟨"B", "png"⟩]⟩]⟩
    markitdown := fun _ => none
    write := fun _ => .ok }

/-- All-engine-success environment for the C4 witness. -/
def envC4 : Env :=
  { fitzOpen := fun _ => none
    markitdown := fun _ => none
    write := fun _ => .ok }

/-! ## Claim C9 -/

/-- C9: running the sequential tool twice over the same tree with the same
options and deterministic engines leaves exactly the filesystem of one run:
every output file is overwritten with identical content (writes are
truncating overwrites, directory creation is idempotent), so the Markdown
outputs are byte-identical across runs. -/
theorem C9_reruns_are_idempotent (env : Env) (embed : Bool)
    (sourceDir outputDir : Path) (tree : List Entry) (fs : FS) :
    process_directory env embed sourceDir outputDir tree
        (process_directory env embed sourceDir outputDir tree fs) =
      process_directory env embed sourceDir outputDir tree fs := by
  simp only [process_directory_eq]
  exact applyScript_idem _ _

/-! ## Claim C10 -/

/-- C10: `process_pdf` creates the output parent directory (with parents,
idempotently) before either converter runs, so after any job — including one
whose primary and fallback conversions both fail — every prefix of the
mirrored parent directory exists under the output root. -/
theorem C10_output_parent_dir_exists (env : Env) (embed : Bool)
    (pdfPath sourceDir outputDir : Path) (fs : FS) (q : Path)
    (hq : q.isPrefixOf
      (parentOf (outputPathFor pdfPath sourceDir outputDir)) = true) :
    ((process_pdf env embed pdfPath sourceDir outputDir fs).1).dirs q = true := by
  rw [process_pdf_eq]
  dsimp only
  rw [dirs_applyScript]
  suffices h : mkdirsCover
      (processScript env embed pdfPath sourceDir outputDir) q = true by
    rw [h, Bool.or_true]
  rw [processScript]
  rw [mkdirsCover, hq]
  rfl

/-- C10 witness: under the doubly-failing environment the parent directory
of the derived output path exists after the job. -/
theorem C10_witness :
    ((process_pdf envC2 false ["src", "a.pdf"] ["src"] ["out"] fsEmpty).1).dirs
      ["out"] = true :=
  C10_output_parent_dir_exists envC2 false ["src", "a.pdf"] ["src"] ["out"]
    fsEmpty ["out"] (by decide)

/-! ## Claim C2 -/

/-- C2 counterexample: with a document whose primary conversion reaches the
output write and fails there (`open` created the file, the write raised) and
a failing fallback engine, both converters fail and yet a (truncated) output
file exists at the target path afterwards. -/
theorem C2_counterexample :
    primaryOkFor envC2 false ["src", "a.pdf"] ["src"] ["out"] = false ∧
    envC2.markitdown ["src", "a.pdf"] = none ∧
    ((process_pdf envC2 false ["src", "a.pdf"] ["src"] ["out"] fsEmpty).1).files
      (outputPathFor ["src", "a.pdf"] ["src"] ["out"]) = some "" := by
  refine ⟨rfl, rfl, ?_⟩
  rfl

/-- C2 (amended): when both converters fail and neither failure is a
file-creating failure of the output write itself — the primary failed, the
fallback engine raised, and the write statement at the target is not of the
create-then-raise kind — no output file exists at the derived target path
after the job (the target it had no file before keeps none). -/
theorem C2_engines_fail_no_output (env : Env) (embed : Bool)
    (pdfPath sourceDir outputDir : Path) (fs : FS)
    (hprim : primaryOkFor env embed pdfPath sourceDir outputDir = false)
    (hfall : env.markitdown pdfPath = none)
    (hw : env.write (outputPathFor pdfPath sourceDir outputDir)
      ≠ .errAfterCreate)
    (h0 : fs.files (outputPathFor pdfPath sourceDir outputDir) = none) :
    ((process_pdf env embed pdfPath sourceDir outputDir fs).1).files
      (outputPathFor pdfPath sourceDir outputDir) = none := by
  rw [process_pdf_eq]
  dsimp only
  rw [files_applyScript]
  rw [processScript_no_out_write env embed pdfPath sourceDir outputDir
    hprim hfall hw]
  exact h0

/-- C2 witness: with both engines raising (and completing writes elsewhere),
the target path holds no file after the job. -/
theorem C2_witness :
    ((process_pdf envC1 false ["src", "a.pdf"] ["src"] ["out"] fsEmpty).1).files
      (outputPathFor ["src", "a.pdf"] ["src"] ["out"]) = none :=
  C2_engines_fail_no_output envC1 false ["src", "a.pdf"] ["src"] ["out"]
    fsEmpty rfl rfl (by decide) rfl

/-! ## Claim C1 -/

/-- C1: evaluation of the dispatcher at a file on which both engines fail.
The run does not abort — the second file is still converted — but the
doubly-failed file is reported as a success: `process_single_pdf` returns
`True` because `convert_pdf_with_markitdown` swallows its own exception and
`process_pdf` ignores the fallback result, so the summary counts 2 of 2
files successful although no output exists for the first file. -/
theorem C1_double_failure_reported_as_success :
    envC1.fitzOpen ["src", "a.pdf"] = none ∧
    envC1.markitdown ["src", "a.pdf"] = none ∧
    (process_pdfs_parallel envC1 false ["src"] ["out"] treeC1 fsEmpty).2.1 = 2 ∧
    (process_pdfs_parallel envC1 false ["src"] ["out"] treeC1 fsEmpty).2.2 = 2 ∧
    ((process_pdfs_parallel envC1 false ["src"] ["out"] treeC1 fsEmpty).1).files
      ["out", "a.md"] = none ∧
    ((process_pdfs_parallel envC1 false ["src"] ["out"] treeC1 fsEmpty).1).files
      ["out", "b.md"] = some "### Page 1\n\nhello\n" := by
  have ha : globMatch "*.pdf".data "a.pdf".data = true :=
    (globMatch_pdf "a.pdf").2 (by decide)
  have hb : globMatch "*.pdf".data "b.pdf".data = true :=
    (globMatch_pdf "b.pdf").2 (by decide)
  have hcollect : collect_pdf_files treeC1 = treeC1 := by
    simp [collect_pdf_files, treeC1, List.filter_cons, ha, hb]
  refine ⟨rfl, rfl, ?_, ?_, ?_, ?_⟩ <;>
    · simp only [process_pdfs_parallel, hcollect]
      rfl

/-! ## Claim C3 -/

/-- C3 counterexample: a file named `A.PDF` is discovered by the sequential
walk (`file.lower().endswith(".pdf")`) but not by the parallel collector
(`rglob("*.pdf")`, whose glob match is case-sensitive): the two discovery
steps disagree, so discovery is not case-insensitive in both. -/
theorem C3_counterexample :
    walkPdfEntries [⟨["src"], "A.PDF"⟩] = [⟨["src"], "A.PDF"⟩] ∧
    collect_pdf_files [⟨["src"], "A.PDF"⟩] = [] := by
  constructor
  · rfl
  · have hg : globMatch "*.pdf".data "A.PDF".data = false := by
      rw [Bool.eq_false_iff]
      intro hmatch
      have hs := (globMatch_pdf "A.PDF").1 hmatch
      exact absurd hs (by decide)
    simp [collect_pdf_files, List.filter_cons, hg]

/-- C3 (amended): the sequential walk selects exactly the files whose
lowercased name ends with `.pdf` (case-insensitive), while the parallel
collector selects exactly the files whose name ends with `.pdf` letter for
letter (case-sensitive); the two agree only up to case. -/
theorem C3_discovery_selection (tree : List Entry) (e : Entry) :
    (e ∈ walkPdfEntries tree ↔
      e ∈ tree ∧ ".pdf".data <:+ (lowerName e.name).data) ∧
    (e ∈ collect_pdf_files tree ↔ e ∈ tree ∧ ".pdf".data <:+ e.name.data) := by
  constructor
  · rw [walkPdfEntries, List.mem_filter]
    refine and_congr_right fun _ => ?_
    rw [endsWithB, List.isSuffixOf_iff_suffix]
  · rw [collect_pdf_files, List.mem_filter]
    exact and_congr_right fun _ => globMatch_pdf e.name

/-! ## Claim C5 -/

/-- C5: per job, the fallback converter is invoked exactly once when the
primary conversion fails and not at all when it succeeds; and when the
primary failed, the fallback engine returned text and the output write
completes, the output file holds that text verbatim. -/
theorem C5_fallback_iff_primary_fails (env : Env) (embed : Bool)
    (pdfPath sourceDir outputDir : Path) (fs : FS) :
    (((process_pdf env embed pdfPath sourceDir outputDir fs).2).count
        (Ev.fallbackCall pdfPath) =
      if primaryOkFor env embed pdfPath sourceDir outputDir then 0 else 1) ∧
    (∀ t : String, primaryOkFor env embed pdfPath sourceDir outputDir = false →
      env.markitdown pdfPath = some t →
      env.write (outputPathFor pdfPath sourceDir outputDir) = .ok →
      ((process_pdf env embed pdfPath sourceDir outputDir fs).1).files
        (outputPathFor pdfPath sourceDir outputDir) = some t) := by
  constructor
  · rw [process_pdf_eq]
    dsimp only
    rw [processEvents]
    cases primaryOkFor env embed pdfPath sourceDir outputDir <;>
      simp [List.count_cons, List.count_nil]
  · intro t hprim hmk hw
    rw [process_pdf_eq]
    dsimp only
    rw [files_applyScript]
    suffices h : lastWriteTo (processScript env embed pdfPath sourceDir
        outputDir) (outputPathFor pdfPath sourceDir outputDir) = some t by
      rw [h]
    rw [processScript]
    show lastWriteTo _ _ = some t
    rw [lastWriteTo]
    rw [hprim]
    simp only [Bool.false_eq_true, if_false]
    rw [lastWriteTo_append]
    rw [fallbackScript, hmk]
    unfold writeScript
    rw [hw]
    simp [lastWriteTo, Option.orElse]

/-- C5 witness: on a job whose primary extraction raises, the fallback is
invoked (once) and its text lands verbatim in the output file. -/
theorem C5_witness :
    (((process_pdf envC5 false ["src", "a.pdf"] ["src"] ["out"]
        fsEmpty).2).count (Ev.fallbackCall ["src", "a.pdf"]) =
      if primaryOkFor envC5 false ["src", "a.pdf"] ["src"] ["out"] then 0
      else 1) ∧
    ((process_pdf envC5 false ["src", "a.pdf"] ["src"] ["out"]
        fsEmpty).1).files (outputPathFor ["src", "a.pdf"] ["src"] ["out"]) =
      some "FALLBACK" :=
  ⟨(C5_fallback_iff_primary_fails envC5 false ["src", "a.pdf"] ["src"] ["out"]
      fsEmpty).1,
   (C5_fallback_iff_primary_fails envC5 false ["src", "a.pdf"] ["src"] ["out"]
      fsEmpty).2 "FALLBACK" rfl rfl rfl⟩

/-! ## Claim C4 -/

/-- C4: in folder mode the emitted Markdown fragment is
`![Image]({image_subfolder_name}/{filename})` where the folder component
names exactly the sibling folder the image bytes were written into: the
enhanced converter hardcodes `images` in the reference and `process_pdf`
fixes the folder `output_path.parent / "images"`, and the alternative-2
converter uses the configured folder name both for the write target and
(via `image_folder.name`) for the reference. -/
theorem C4_folder_mode_reference_matches_write_target (env : Env)
    (name : String) (parentDir : Path) (n i : Nat) (img : Img) (fs : FS)
    (hw1 : env.write ((parentDir ++ ["images"]) ++
      [imageFilename n i img.ext]) = .ok)
    (hw2 : env.write ((parentDir ++ [name]) ++
      [imageFilename n i img.ext]) = .ok) :
    (placeImage env false (some (parentDir ++ ["images"])) n i img fs).2 =
      some ("![Image](" ++ ("images/" ++ imageFilename n i img.ext) ++ ")\n") ∧
    ((placeImage env false (some (parentDir ++ ["images"])) n i img
        fs).1).files ((parentDir ++ ["images"]) ++ [imageFilename n i img.ext])
      = some img.bytes ∧
    (placeImage_alt2 env false (some (parentDir ++ [name])) n i img fs).2 =
      some ("![Image](" ++ (name ++ "/" ++ imageFilename n i img.ext) ++
        ")\n") ∧
    ((placeImage_alt2 env false (some (parentDir ++ [name])) n i img
        fs).1).files ((parentDir ++ [name]) ++ [imageFilename n i img.ext])
      = some img.bytes := by
  have hw1a : env.write (parentDir ++ ["images", imageFilename n i img.ext])
      = .ok := by simpa using hw1
  have hw2a : env.write (parentDir ++ [name, imageFilename n i img.ext])
      = .ok := by simpa using hw2
  refine ⟨?_, ?_, ?_, ?_⟩
  · simp [placeImage, writeTo, hw1a]
  · simp [placeImage, writeTo, hw1a, setFile]
  · simp [placeImage_alt2, writeTo, hw2a, lastComponent_append]
  · simp [placeImage_alt2, writeTo, hw2a, setFile]

/-- C4 witness: concrete placement of one image in both converter versions
with the folder name `figs` for the configurable one. -/
theorem C4_witness :
    (placeImage envC4 false (some (["out"] ++ ["images"])) 1 1 ⟨"B", "png"⟩
        fsEmpty).2 =
      some ("![Image](" ++ ("images/" ++ imageFilename 1 1 "png") ++ ")\n") ∧
    ((placeImage envC4 false (some (["out"] ++ ["images"])) 1 1 ⟨"B", "png"⟩
        fsEmpty).1).files ((["out"] ++ ["images"]) ++
      [imageFilename 1 1 "png"]) = some "B" ∧
    (placeImage_alt2 envC4 false (some (["out"] ++ ["figs"])) 1 1 ⟨"B", "png"⟩
        fsEmpty).2 =
      some ("![Image](" ++ ("figs" ++ "/" ++ imageFilename 1 1 "png") ++
        ")\n") ∧
    ((placeImage_alt2 envC4 false (some (["out"] ++ ["figs"])) 1 1
        ⟨"B", "png"⟩ fsEmpty).1).files ((["out"] ++ ["figs"]) ++
      [imageFilename 1 1 "png"]) = some "B" :=
  C4_folder_mode_reference_matches_write_target envC4 "figs" ["out"] 1 1
    ⟨"B", "png"⟩ fsEmpty rfl rfl

/-! ## Claim C6 -/

/-- C6: image filenames follow
`image_{page:03d}_{index:02d}.{ext}` with 1-based in-page index; the map
from (page, index) to the filename is injective — even across different
extensions — so distinct images of one document never collide; and the
two-page document with two images on page 1 and none on page 2 yields
exactly the filenames `image_001_01.png` and `image_001_02.jpeg` in its
fragments, in order. -/
theorem C6_image_naming :
    (∀ (p1 i1 p2 i2 : Nat) (e1 e2 : String),
      imageFilename p1 i1 e1 = imageFilename p2 i2 e2 →
      p1 = p2 ∧ i1 = i2 ∧ e1 = e2) ∧
    imageFilename 1 1 "png" = "image_001_01.png" ∧
    imageFilename 1 2 "jpeg" = "image_001_02.jpeg" ∧
    (convertPages envC6 false (some ["out", "images"]) pagesC6 1 fsEmpty).2 =
      some ["### Page 1\n\nt1\n", "![Image](images/image_001_01.png)\n",
        "![Image](images/image_001_02.jpeg)\n", "### Page 2\n\nt2\n"] := by
  refine ⟨fun p1 i1 p2 i2 e1 e2 h => imageFilename_inj h,
    imageFilename_1_1_png, imageFilename_1_2_jpeg, ?_⟩
  rw [convertPages_eq]
  show pagesFrags envC6 false (some ["out", "images"]) pagesC6 1 =
    some ["### Page 1\n\nt1\n", "![Image](images/image_001_01.png)\n",
      "![Image](images/image_001_02.jpeg)\n", "### Page 2\n\nt2\n"]
  simp only [pagesC6, pagesFrags, imagesFrags, placeImageFrag, envC6,
    Bool.false_eq_true, if_false]
  rw [imageFilename_1_1_png, imageFilename_1_2_jpeg]
  decide

/-- C6 witness: the injectivity applied at a concrete filename pair. -/
theorem C6_witness : (1 : Nat) = 1 ∧ (1 : Nat) = 1 ∧ ("png" : String) = "png" :=
  C6_image_naming.1 1 1 1 1 "png" "png" rfl

/-! ## Claim C7 -/

/-- C7: whenever the primary conversion succeeds, the written Markdown is
the newline-join of, per page in ascending 1-based order, the
`### Page N` header-and-text fragment followed by that page's image
fragments in extraction order. -/
theorem C7_markdown_page_structure (env : Env) (embed : Bool)
    (pdfPath outputPath : Path) (imageFolder : Option Path) (fs : FS)
    (doc : Doc) (fsOut : FS)
    (hdoc : env.fitzOpen pdfPath = some doc)
    (hconv : convert_pdf_with_pymupdf env embed pdfPath outputPath imageFolder
      fs = (fsOut, true)) :
    fsOut.files outputPath =
      some (String.intercalate "\n" (mdParts embed doc.pages)) := by
  rw [convert_pdf_with_pymupdf_eq] at hconv
  have hfs := congrArg Prod.fst hconv
  have hok := congrArg Prod.snd hconv
  dsimp only at hfs hok
  unfold primaryOk at hok
  rw [hdoc] at hok
  dsimp only at hok
  cases hfr : pagesFrags env embed imageFolder doc.pages 1 with
  | none => rw [hfr] at hok; simp at hok
  | some parts =>
    rw [hfr] at hok
    dsimp only at hok
    have hparts : parts = mdParts embed doc.pages := by
      rw [mdParts]
      exact pagesFrags_some hfr
    rw [← hfs, files_applyScript]
    unfold primaryScript
    rw [hdoc]
    dsimp only
    rw [hfr]
    dsimp only
    have hlast : lastWriteTo
        (pagesScript env embed imageFolder doc.pages 1 ++
          writeScript env outputPath (String.intercalate "\n" parts))
        outputPath = some (String.intercalate "\n" parts) := by
      rw [lastWriteTo_append]
      unfold writeScript
      cases hwx : env.write outputPath with
      | ok => simp [lastWriteTo, Option.orElse]
      | errAfterCreate => unfold writeOk at hok; rw [hwx] at hok; simp at hok
      | errBeforeCreate => unfold writeOk at hok; rw [hwx] at hok; simp at hok
    rw [hlast, hparts]

/-- C7 witness: a one-page text-only document in embed mode produces exactly
the claimed page structure at the output path. -/
theorem C7_witness :
    ((convert_pdf_with_pymupdf envC7 true ["src", "a.pdf"] ["out", "a.md"]
        none fsEmpty).1).files ["out", "a.md"] =
      some (String.intercalate "\n" (mdParts true [⟨"T", []⟩])) :=
  C7_markdown_page_structure envC7 true ["src", "a.pdf"] ["out", "a.md"] none
    fsEmpty ⟨[⟨"T", []⟩]⟩ _ rfl rfl

/-! ## Claim C8 -/

/-- C8: embed mode and folder mode are mutually exclusive in their outputs.
In embed mode the primary converter changes no file other than the output
Markdown file and creates no directory (so no image file and no image
subfolder appear), and each image fragment is an inline base64 data URI.
In folder mode no fragment of the produced Markdown parts begins with the
inline-data prefix `![Image](data:`, and on a successful conversion every
extracted image is persisted in the job image folder with exactly its
bytes. -/
theorem C8_embed_and_folder_exclusive (env : Env)
    (pdfPath outputPath folder : Path) (fs : FS) :
    (∀ q : Path, q ≠ outputPath →
      ((convert_pdf_with_pymupdf env true pdfPath outputPath (some folder)
        fs).1).files q = fs.files q) ∧
    (∀ q : Path,
      ((convert_pdf_with_pymupdf env true pdfPath outputPath (some folder)
        fs).1).dirs q = fs.dirs q) ∧
    (∀ (n i : Nat) (img : Img), imageFragment true n i img =
      "![Image](data:image/" ++ img.ext ++ ";base64," ++ b64encode img.bytes
        ++ ")\n") ∧
    (∀ (pages : List Page) (s : String), s ∈ mdParts false pages →
      ¬ ("![Image](data:".data <+: s.data)) ∧
    (∀ (doc : Doc) (fsOut : FS) (n i : Nat) (pg : Page) (img : Img),
      folder = parentOf outputPath ++ ["images"] →
      env.fitzOpen pdfPath = some doc →
      convert_pdf_with_pymupdf env false pdfPath outputPath (some folder) fs
        = (fsOut, true) →
      (n, pg) ∈ enumFrom 1 doc.pages →
      (i, img) ∈ enumFrom 1 pg.images →
      fsOut.files (folder ++ [imageFilename n i img.ext]) = some img.bytes) := by
  refine ⟨?_, ?_, fun n i img => rfl, ?_, ?_⟩
  · intro q hq
    rw [convert_pdf_with_pymupdf_eq]
    dsimp only
    rw [files_applyScript]
    rw [lastWriteTo_eq_none _ _ fun p c hm => by
      rw [primaryScript_embed_write_mem hm]
      exact Ne.symm hq]
  · intro q
    rw [convert_pdf_with_pymupdf_eq]
    dsimp only
    rw [dirs_applyScript]
    rw [mkdirsCover_eq_false fun p hp => primaryScript_embed_no_mkdir hp]
    rw [Bool.or_false]
  · intro pages s hs hpre
    rw [mdParts] at hs
    obtain ⟨pp, hpp, hmem⟩ := List.mem_flatMap.1 hs
    rcases List.mem_cons.1 hmem with hhead | himg
    · subst hhead
      have hdata : (pageHeader pp.1 pp.2.text).data =
          "### Page ".data ++ ((toString pp.1).data ++
            ("\n\n".data ++ (pp.2.text.data ++ "\n".data))) := by
        simp [pageHeader, String.data_append]
      rw [hdata] at hpre
      exact not_prefix_of_neither _ (by decide) (by decide) hpre
    · obtain ⟨ii, hii, hfrag⟩ := List.mem_map.1 himg
      subst hfrag
      have hdata : (imageFragment false pp.1 ii.1 ii.2).data =
          ("![Image](".data ++ "images/".data) ++
            ((imageFilename pp.1 ii.1 ii.2.ext).data ++ ")\n".data) := by
        simp [imageFragment, String.data_append]
      rw [hdata] at hpre
      exact not_prefix_of_neither _ (by decide) (by decide) hpre
  · intro doc fsOut n i pg img hfold hdoc hconv hpg himg
    rw [convert_pdf_with_pymupdf_eq] at hconv
    have hfs := congrArg Prod.fst hconv
    have hok := congrArg Prod.snd hconv
    dsimp only at hfs hok
    unfold primaryOk at hok
    rw [hdoc] at hok
    dsimp only at hok
    cases hfr : pagesFrags env false (some folder) doc.pages 1 with
    | none => rw [hfr] at hok; simp at hok
    | some parts =>
      rw [hfr] at hok
      dsimp only at hok
      rw [← hfs, files_applyScript]
      unfold primaryScript
      rw [hdoc]
      dsimp only
      rw [hfr]
      dsimp only
      have hws : lastWriteTo (writeScript env outputPath
          (String.intercalate "\n" parts))
          (folder ++ [imageFilename n i img.ext]) = none := by
        apply lastWriteTo_eq_none
        intro p c hm
        rw [writeScript_write_mem hm, hfold]
        exact Ne.symm (imagePath_ne_output outputPath
          (imageFilename n i img.ext))
      have hlast : lastWriteTo
          (pagesScript env false (some folder) doc.pages 1 ++
            writeScript env outputPath (String.intercalate "\n" parts))
          (folder ++ [imageFilename n i img.ext]) = some img.bytes := by
        rw [lastWriteTo_append, hws]
        show lastWriteTo (pagesScript env false (some folder) doc.pages 1)
          (folder ++ [imageFilename n i img.ext]) = some img.bytes
        exact pagesScript_lastWrite hfr hpg himg
      rw [hlast]

/-- C8 witness: in embed mode a path other than the output is untouched; in
folder mode the extracted image of the one-page one-image document is
persisted with its bytes. -/
theorem C8_witness :
    ((convert_pdf_with_pymupdf envC8 true ["src", "a.pdf"] ["out", "a.md"]
        (some ["out", "images"]) fsEmpty).1).files ["elsewhere"] =
      fsEmpty.files ["elsewhere"] ∧
    ((convert_pdf_with_pymupdf envC8 false ["src", "a.pdf"] ["out", "a.md"]
        (some ["out", "images"]) fsEmpty).1).files
      (["out", "images"] ++ [imageFilename 1 1 "png"]) = some "B" :=
  ⟨(C8_embed_and_folder_exclusive envC8 ["src", "a.pdf"] ["out", "a.md"]
      ["out", "images"] fsEmpty).1 ["elsewhere"] (by decide),
   (C8_embed_and_folder_exclusive envC8 ["src", "a.pdf"] ["out", "a.md"]
      ["out", "images"] fsEmpty).2.2.2.2 ⟨[⟨"T", [⟨"B", "png"⟩]⟩]⟩ _ 1 1
     ⟨"T", [⟨"B", "png"⟩]⟩ ⟨"B", "png"⟩ rfl rfl rfl (by simp [enumFrom])
     (by simp [enumFrom])⟩

end PdfMd
